import Mathlib

/-!
# Verification of the orchestration core of `src/streamlit.py`

Shallow embedding of `process_medical_report` (src/streamlit.py, lines
89-160) and of its helper `get_response` (lines 110-114).

The function fans a medical report out to three fixed analyzer agents
(`Cardiologist`, `Psychologist`, `Pulmonologist`), collects their results
in completion order (`as_completed`), checks for `None` responses, and on
full success invokes the `MultidisciplinaryTeam` synthesis agent.

Modelling choices, each tied to the source:
* The agents are opaque external collaborators (their class bodies live in
  `utils/Agents.py`, outside this repository's source).  An `Env` record
  supplies, for each analyzer name, the outcome of constructing the agent
  from `(medical_report, api_key)` and calling `.run()`; and likewise the
  outcome of constructing and running `MultidisciplinaryTeam`.  An outcome
  is a `RunResult`: a returned payload (`ok (some s)`), a returned Python
  `None` (`ok none`), or a raised exception (`exn msg`).
* `as_completed` yields futures in an arbitrary completion order, so the
  completion order is an explicit parameter `order : List AgentName`; the
  genuine runs are those where `order` is a permutation of the three agent
  names (each submitted future completes exactly once).
* Streamlit side effects (`progress_bar.progress`, `status_text.text`,
  `st.warning`, `st.error`) are recorded in an event trace.
* The `responses` Python dict is an association list built by
  `dictInsert`, mirroring dict assignment (update-or-append) and dict
  lookup / `values()`.
-/

/-- The three analyzer agent names, the keys of the `agents` dict literal
built at src/streamlit.py lines 101-105. -/
inductive AgentName where
  | cardiologist
  | psychologist
  | pulmonologist
deriving DecidableEq, Repr, Fintype

/-- The Python string key of each agent in the `agents` dict. -/
def AgentName.pyName : AgentName → String
  | .cardiologist => "Cardiologist"
  | .psychologist => "Psychologist"
  | .pulmonologist => "Pulmonologist"

/-- The keys of the `agents` dict, in the source's literal order. -/
def allAgents : List AgentName :=
  [.cardiologist, .psychologist, .pulmonologist]

/-- Outcome of one opaque agent call `agent.run()`: a returned payload,
a returned Python `None`, or a raised exception carrying its message. -/
inductive RunResult where
  | ok : Option String → RunResult
  | exn : String → RunResult
deriving DecidableEq, Repr

/-- The opaque external collaborators: for each analyzer name, the result
of constructing the agent on `(medical_report, api_key)` and calling
`.run()`; and the result of constructing `MultidisciplinaryTeam` on the
three recorded responses plus the key and calling `.run()`.  The team
arguments are `Option String` because Python would pass whatever value
sits in the `responses` dict. -/
structure Env where
  analyzerRun : AgentName → String → String → RunResult
  teamRun : Option String → Option String → Option String → String → RunResult

/-- Python dict assignment `d[k] = v`: update the existing entry or append
a new one. -/
def dictInsert (d : List (AgentName × Option String)) (k : AgentName)
    (v : Option String) : List (AgentName × Option String) :=
  if d.any (fun p => p.1 = k) then
    d.map (fun p => if p.1 = k then (k, v) else p)
  else d ++ [(k, v)]

/-- Python dict lookup `d[k]` as an option: `some v` when the key is
present, `none` when absent (a `KeyError` in Python). -/
def dictGet (d : List (AgentName × Option String)) (k : AgentName) :
    Option (Option String) :=
  (d.find? (fun p => p.1 = k)).map Prod.snd

/-- Trace of Streamlit side effects emitted during one run, in order:
`progress_bar.progress` percentages, `status_text.text` messages,
`st.warning` messages, `st.error` messages, and the argument tuples of
each `MultidisciplinaryTeam` construction/invocation. -/
structure Trace where
  progress : List Nat
  statusTexts : List String
  warnings : List String
  errors : List String
  teamCalls : List (Option String × Option String × Option String × String)
deriving DecidableEq, Repr

/-- The warning emitted by `get_response` when an agent returns `None`
(src/streamlit.py line 113). -/
def warnMsg (n : AgentName) : String :=
  "Warning: " ++ n.pyName ++ " failed to generate a response, likely due to API issues."

/-- The status text emitted after each completed analysis
(src/streamlit.py line 129). -/
def completedMsg (n : AgentName) : String :=
  "Completed " ++ n.pyName ++ " analysis..."

/-- The error shown when some agent response is `None`
(src/streamlit.py line 133). -/
def agentsFailedMsg : String :=
  "Error: One or more agents failed to generate a response. Check API key and quota."

/-- The error shown when the synthesis returns `None`
(src/streamlit.py line 150). -/
def teamFailedMsg : String :=
  "Error: MultidisciplinaryTeam failed to generate a final diagnosis."

/-- The error shown by the outer `except` clause
(src/streamlit.py line 159). -/
def processErrMsg (e : String) : String :=
  "An error occurred during processing: " ++ e

/-- `get_response(agent_name, agent)` (src/streamlit.py lines 110-114):
run one agent; when it returns `None`, emit a warning naming the agent;
return the `(agent_name, response)` pair.  A raised exception is captured
by the future and surfaces later at `future.result()`; we return it as
`Except.error`.  The second component lists the warnings emitted. -/
def get_response (env : Env) (medical_report api_key : String)
    (agent_name : AgentName) :
    Except String (AgentName × Option String) × List String :=
  match env.analyzerRun agent_name medical_report api_key with
  | .exn e => (.error e, [])
  | .ok none => (.ok (agent_name, none), [warnMsg agent_name])
  | .ok (some s) => (.ok (agent_name, some s), [])

/-- Result of the `for future in as_completed(futures)` loop
(src/streamlit.py lines 124-129): the trace so far, the `responses` dict,
and the exception re-raised by `future.result()` when a worker raised. -/
structure LoopOut where
  tr : Trace
  dict : List (AgentName × Option String)
  exn : Option String
deriving DecidableEq, Repr

/-- The `as_completed` loop (src/streamlit.py lines 124-129), walking the
futures in completion order: record each response in `responses`, bump
`completed`, emit `progress(20 + completed * 20)` and the completion
status text.  When `future.result()` re-raises a worker's exception the
loop aborts (the remaining futures still ran in the pool; only their
observation is skipped). -/
def runLoop (env : Env) (medical_report api_key : String) :
    List AgentName → Trace → List (AgentName × Option String) → Nat → LoopOut
  | [], tr, d, _ => { tr := tr, dict := d, exn := none }
  | n :: rest, tr, d, completed =>
    match get_response env medical_report api_key n with
    | (.error e, _) => { tr := tr, dict := d, exn := some e }
    | (.ok (agent_name, response), ws) =>
      let tr := { tr with warnings := tr.warnings ++ ws }
      let d := dictInsert d agent_name response
      let completed := completed + 1
      let tr := { tr with
        progress := tr.progress ++ [20 + completed * 20],
        statusTexts := tr.statusTexts ++ [completedMsg agent_name] }
      runLoop env medical_report api_key rest tr d completed

/-- Full observable outcome of one `process_medical_report` call: the
side-effect trace, the `responses` dict as it stands when the loop ends
(the dict every later decision reads), the list of analyzer agents whose
`run()` executed in the pool (every submitted future runs exactly once,
in completion order), and the returned pair. -/
structure RunOutput where
  trace : Trace
  respDict : List (AgentName × Option String)
  agentRuns : List AgentName
  retResponses : Option (List (AgentName × Option String))
  retDiagnosis : Option String
deriving DecidableEq, Repr

/-- `process_medical_report(medical_report, api_key)` (src/streamlit.py
lines 89-160), parameterized by the opaque agent behaviours `env` and the
completion order `order` of the three submitted futures.

Line by line: `progress(0)` at init (93); status + `progress(10)` (98-99);
the `agents` dict is built (101-105) and `progress(20)` (107); status
(117); the `as_completed` loop (120-129); the `None` check (132-134);
`progress(80)` + status (136-137); the `MultidisciplinaryTeam` call with
the three keyed responses (140-147, a missing key would raise `KeyError`,
caught by the outer `except`); the `None` check on the diagnosis
(149-151); `progress(100)` + status and the success return (153-156);
the `except` clause turning any exception into `(None, None)` (158-160). -/
def process_medical_report (env : Env) (order : List AgentName)
    (medical_report api_key : String) : RunOutput :=
  let tr : Trace :=
    { progress := [0], statusTexts := [], warnings := [], errors := [],
      teamCalls := [] }
  let tr := { tr with
    statusTexts := tr.statusTexts ++ ["Initializing AI agents..."],
    progress := tr.progress ++ [10] }
  let tr := { tr with progress := tr.progress ++ [20] }
  let tr := { tr with
    statusTexts := tr.statusTexts ++ ["Running specialist consultations..."] }
  let lo := runLoop env medical_report api_key order tr [] 0
  match lo.exn with
  | some e =>
    let tr := { lo.tr with errors := lo.tr.errors ++ [processErrMsg e] }
    { trace := tr, respDict := lo.dict, agentRuns := order,
      retResponses := none, retDiagnosis := none }
  | none =>
    let d := lo.dict
    if d.any (fun p => p.2 = none) then
      let tr := { lo.tr with errors := lo.tr.errors ++ [agentsFailedMsg] }
      { trace := tr, respDict := d, agentRuns := order,
        retResponses := none, retDiagnosis := none }
    else
      let tr := { lo.tr with
        progress := lo.tr.progress ++ [80],
        statusTexts := lo.tr.statusTexts ++
          ["Generating multidisciplinary team analysis..."] }
      match dictGet d .cardiologist, dictGet d .psychologist,
          dictGet d .pulmonologist with
      | some c, some p, some u =>
        let tr := { tr with teamCalls := tr.teamCalls ++ [(c, p, u, api_key)] }
        match env.teamRun c p u api_key with
        | .exn e =>
          let tr := { tr with errors := tr.errors ++ [processErrMsg e] }
          { trace := tr, respDict := d, agentRuns := order,
            retResponses := none, retDiagnosis := none }
        | .ok none =>
          let tr := { tr with errors := tr.errors ++ [teamFailedMsg] }
          { trace := tr, respDict := d, agentRuns := order,
            retResponses := none, retDiagnosis := none }
        | .ok (some diag) =>
          let tr := { tr with
            progress := tr.progress ++ [100],
            statusTexts := tr.statusTexts ++
              ["Analysis completed successfully!"] }
          { trace := tr, respDict := d, agentRuns := order,
            retResponses := some d, retDiagnosis := some diag }
      | none, _, _ =>
        let tr := { tr with
          errors := tr.errors ++ [processErrMsg "'Cardiologist'"] }
        { trace := tr, respDict := d, agentRuns := order,
          retResponses := none, retDiagnosis := none }
      | some _, none, _ =>
        let tr := { tr with
          errors := tr.errors ++ [processErrMsg "'Psychologist'"] }
        { trace := tr, respDict := d, agentRuns := order,
          retResponses := none, retDiagnosis := none }
      | some _, some _, none =>
        let tr := { tr with
          errors := tr.errors ++ [processErrMsg "'Pulmonologist'"] }
        { trace := tr, respDict := d, agentRuns := order,
          retResponses := none, retDiagnosis := none }

/-- Concrete environment in which every agent succeeds. -/
def envAllOk : Env where
  analyzerRun := fun n _ _ => .ok (some (n.pyName ++ " report"))
  teamRun := fun _ _ _ _ => .ok (some "combined verdict")

/-- Concrete environment in which every analyzer succeeds but the
synthesis agent returns `None`. -/
def envSynthFail : Env where
  analyzerRun := fun n _ _ => .ok (some (n.pyName ++ " report"))
  teamRun := fun _ _ _ _ => .ok none

/-- Concrete environment in which the psychologist agent returns `None`
and the other agents succeed. -/
def envPsyFail : Env where
  analyzerRun := fun n _ _ =>
    match n with
    | .psychologist => .ok none
    | _ => .ok (some (n.pyName ++ " report"))
  teamRun := fun _ _ _ _ => .ok (some "combined verdict")

/-! ## Characterization of the completion loop

The loop's observable output is described by structurally recursive
functions of the completion order, proved equal to `runLoop` below. -/

/-- The value an analyzer's `run()` returns in `env` (the `response`
variable of `get_response`); `none` both for a returned Python `None`
and (vacuously, never used there) for a raised exception. -/
def respOf (env : Env) (r k : String) (n : AgentName) : Option String :=
  match env.analyzerRun n r k with
  | .ok resp => resp
  | .exn _ => none

/-- Number of futures the loop observes before one re-raises. -/
def okCount (env : Env) (r k : String) : List AgentName → Nat
  | [] => 0
  | n :: rest =>
    match env.analyzerRun n r k with
    | .exn _ => 0
    | .ok _ => okCount env r k rest + 1

/-- The exception the loop's first raising future re-raises, if any. -/
def firstExn (env : Env) (r k : String) : List AgentName → Option String
  | [] => none
  | n :: rest =>
    match env.analyzerRun n r k with
    | .exn e => some e
    | .ok _ => firstExn env r k rest

/-- The `responses` dict after the loop, starting from `d`. -/
def loopDict (env : Env) (r k : String) :
    List AgentName → List (AgentName × Option String) →
      List (AgentName × Option String)
  | [], d => d
  | n :: rest, d =>
    match env.analyzerRun n r k with
    | .exn _ => d
    | .ok resp => loopDict env r k rest (dictInsert d n resp)

/-- The warnings emitted while the loop observes completions. -/
def loopWarnings (env : Env) (r k : String) : List AgentName → List String
  | [] => []
  | n :: rest =>
    match env.analyzerRun n r k with
    | .exn _ => []
    | .ok none => warnMsg n :: loopWarnings env r k rest
    | .ok (some _) => loopWarnings env r k rest

/-- The status texts emitted while the loop observes completions. -/
def loopStatus (env : Env) (r k : String) : List AgentName → List String
  | [] => []
  | n :: rest =>
    match env.analyzerRun n r k with
    | .exn _ => []
    | .ok _ => completedMsg n :: loopStatus env r k rest

/-- The analyzer-phase progress percentages `20 + completed * 20`, for
`m` completions observed after `c` earlier ones. -/
def loopProgress (c : Nat) : Nat → List Nat
  | 0 => []
  | m + 1 => (20 + (c + 1) * 20) :: loopProgress (c + 1) m

lemma runLoop_eq (env : Env) (r k : String) (order : List AgentName) :
    ∀ (tr : Trace) (d : List (AgentName × Option String)) (c : Nat),
    runLoop env r k order tr d c =
      { tr := { tr with
          progress := tr.progress ++ loopProgress c (okCount env r k order),
          statusTexts := tr.statusTexts ++ loopStatus env r k order,
          warnings := tr.warnings ++ loopWarnings env r k order },
        dict := loopDict env r k order d,
        exn := firstExn env r k order } := by
  induction order with
  | nil =>
    intro tr d c
    simp [runLoop, okCount, loopStatus, loopWarnings, loopDict, firstExn,
      loopProgress]
  | cons n rest ih =>
    intro tr d c
    cases h : env.analyzerRun n r k with
    | exn e =>
      simp [runLoop, get_response, h, okCount, loopStatus, loopWarnings,
        loopDict, firstExn, loopProgress]
    | ok resp =>
      cases resp with
      | none =>
        simp [runLoop, get_response, h, okCount, loopStatus, loopWarnings,
          loopDict, firstExn, loopProgress, ih]
      | some s =>
        simp [runLoop, get_response, h, okCount, loopStatus, loopWarnings,
          loopDict, firstExn, loopProgress, ih]

/-! ## Elementary facts about the loop functions and the dict -/

lemma okCount_le_length (env : Env) (r k : String) (order : List AgentName) :
    okCount env r k order ≤ order.length := by
  induction order with
  | nil => simp [okCount]
  | cons n rest ih =>
    cases h : env.analyzerRun n r k with
    | exn e => simp [okCount, h]
    | ok resp => simp [okCount, h]; omega

lemma firstExn_eq_none_iff (env : Env) (r k : String) (order : List AgentName) :
    firstExn env r k order = none ↔
      ∀ n ∈ order, ∃ resp, env.analyzerRun n r k = .ok resp := by
  induction order with
  | nil => simp [firstExn]
  | cons n rest ih =>
    cases h : env.analyzerRun n r k with
    | exn e => simp [firstExn, h]
    | ok resp =>
      simp only [firstExn, h, ih, List.mem_cons]
      constructor
      · intro hall m hm
        rcases hm with hm | hm
        · exact ⟨resp, hm ▸ h⟩
        · exact hall m hm
      · intro hall m hm
        exact hall m (Or.inr hm)

lemma okCount_eq_length (env : Env) (r k : String) (order : List AgentName)
    (h : firstExn env r k order = none) :
    okCount env r k order = order.length := by
  induction order with
  | nil => simp [okCount]
  | cons n rest ih =>
    cases hn : env.analyzerRun n r k with
    | exn e => simp [firstExn, hn] at h
    | ok resp =>
      simp only [firstExn, hn] at h
      simp [okCount, hn, ih h]

lemma respOf_eq_of_ok (env : Env) (r k : String) (n : AgentName)
    (resp : Option String) (h : env.analyzerRun n r k = .ok resp) :
    respOf env r k n = resp := by
  simp [respOf, h]

lemma dictInsert_of_not_mem (d : List (AgentName × Option String))
    (n : AgentName) (v : Option String) (h : ∀ p ∈ d, p.1 ≠ n) :
    dictInsert d n v = d ++ [(n, v)] := by
  have : d.any (fun p => p.1 = n) = false := by
    simp only [List.any_eq_false, decide_eq_true_eq]
    exact h
  simp [dictInsert, this]

lemma loopDict_eq (env : Env) (r k : String) :
    ∀ (order : List AgentName) (d0 : List (AgentName × Option String)),
    firstExn env r k order = none →
    (∀ p ∈ d0, p.1 ∉ order) →
    order.Nodup →
    loopDict env r k order d0 =
      d0 ++ order.map (fun n => (n, respOf env r k n)) := by
  intro order
  induction order with
  | nil => intro d0 _ _ _; simp [loopDict]
  | cons n rest ih =>
    intro d0 hex hd hnd
    cases h : env.analyzerRun n r k with
    | exn e => simp [firstExn, h] at hex
    | ok resp =>
      simp only [firstExn, h] at hex
      have hins : dictInsert d0 n resp = d0 ++ [(n, resp)] := by
        refine dictInsert_of_not_mem d0 n resp ?_
        intro p hp
        have := hd p hp
        simp only [List.mem_cons] at this
        exact fun hc => this (Or.inl hc)
      have hnd' : rest.Nodup := hnd.of_cons
      have hnmem : n ∉ rest := by
        have := List.nodup_cons.mp hnd
        exact this.1
      simp only [loopDict, h, hins]
      rw [ih (d0 ++ [(n, resp)]) hex ?_ hnd']
      · simp [respOf_eq_of_ok env r k n resp h]
      · intro p hp
        rcases List.mem_append.mp hp with hp | hp
        · intro hc
          exact hd p hp (List.mem_cons.mpr (Or.inr hc))
        · simp only [List.mem_singleton] at hp
          subst hp
          exact hnmem

lemma dictGet_map (f : AgentName → Option String) :
    ∀ (order : List AgentName) (n : AgentName), order.Nodup →
    dictGet (order.map (fun m => (m, f m))) n =
      if n ∈ order then some (f n) else none := by
  intro order
  induction order with
  | nil => intro n _; simp [dictGet]
  | cons m rest ih =>
    intro n hnd
    by_cases hmn : m = n
    · subst hmn
      simp [dictGet, List.find?]
    · have := ih n hnd.of_cons
      simp only [dictGet] at this ⊢
      simp only [List.map_cons, List.find?_cons]
      have hdec : (decide ((m, f m).1 = n)) = false := by
        simp [hmn]
      rw [hdec]
      simp only [this]
      have hnm : ¬n = m := fun hc => hmn hc.symm
      by_cases hr : n ∈ rest <;> simp [hr, List.mem_cons, hnm]

/-- Membership characterization of the loop warnings (no-exception case):
an agent is warned about exactly when its response was `None`. -/
lemma mem_loopWarnings (env : Env) (r k : String) :
    ∀ (order : List AgentName) (n : AgentName),
    firstExn env r k order = none →
    (warnMsg n ∈ loopWarnings env r k order ↔
      n ∈ order ∧ respOf env r k n = none) := by
  have hinj : ∀ m n : AgentName, warnMsg m = warnMsg n ↔ m = n := by decide
  intro order
  induction order with
  | nil => intro n _; simp [loopWarnings]
  | cons m rest ih =>
    intro n hex
    cases h : env.analyzerRun m r k with
    | exn e => simp [firstExn, h] at hex
    | ok resp =>
      simp only [firstExn, h] at hex
      cases resp with
      | none =>
        simp only [loopWarnings, h, List.mem_cons, ih n hex]
        constructor
        · intro hc
          rcases hc with hc | hc
          · have : n = m := (hinj n m).mp hc
            subst this
            exact ⟨Or.inl rfl, respOf_eq_of_ok env r k n none h⟩
          · exact ⟨Or.inr hc.1, hc.2⟩
        · intro ⟨hmem, hnone⟩
          rcases hmem with hmem | hmem
          · subst hmem
            exact Or.inl rfl
          · exact Or.inr ⟨hmem, hnone⟩
      | some s =>
        simp only [loopWarnings, h, List.mem_cons, ih n hex]
        constructor
        · intro hc
          exact ⟨Or.inr hc.1, hc.2⟩
        · intro ⟨hmem, hnone⟩
          rcases hmem with hmem | hmem
          · subst hmem
            rw [respOf_eq_of_ok env r k n (some s) h] at hnone
            exact absurd hnone (by simp)
          · exact ⟨hmem, hnone⟩

/-- Facts every completion order (a permutation of the three submitted
futures) satisfies. -/
lemma perm_facts (order : List AgentName) (h : order.Perm allAgents) :
    order.Nodup ∧ order.length = 3 ∧ (∀ n : AgentName, n ∈ order) ∧
      (∀ n : AgentName, order.count n = 1) := by
  refine ⟨h.symm.nodup (by decide), h.length_eq, ?_, ?_⟩
  · intro n
    rw [h.mem_iff]
    cases n <;> decide
  · intro n
    rw [h.count_eq]
    cases n <;> decide

/-! ## Scenario lemmas: the run in each of its branches -/

/-- Value of `loopProgress` for a fully observed three-future loop. -/
lemma loopProgress_zero_three : loopProgress 0 3 = [40, 60, 80] := by decide

/-- Scenario: some worker raised and `future.result()` re-raises; the
outer `except` reports it and the run returns `(None, None)`. -/
lemma process_eq_of_exn (env : Env) (order : List AgentName) (r k e : String)
    (hex : firstExn env r k order = some e) :
    process_medical_report env order r k =
      { trace :=
          { progress := [0, 10, 20] ++ loopProgress 0 (okCount env r k order),
            statusTexts := ["Initializing AI agents...",
              "Running specialist consultations..."] ++ loopStatus env r k order,
            warnings := loopWarnings env r k order,
            errors := [processErrMsg e],
            teamCalls := [] },
        respDict := loopDict env r k order [],
        agentRuns := order,
        retResponses := none, retDiagnosis := none } := by
  simp [process_medical_report, runLoop_eq, hex]

/-- Scenario: all futures observed, at least one response is `None`; the
`None` check fires, synthesis is never constructed, return `(None, None)`. -/
lemma process_eq_of_fail (env : Env) (order : List AgentName) (r k : String)
    (hperm : order.Perm allAgents)
    (hex : firstExn env r k order = none)
    (hfail : ∃ n : AgentName, respOf env r k n = none) :
    process_medical_report env order r k =
      { trace :=
          { progress := [0, 10, 20, 40, 60, 80],
            statusTexts := ["Initializing AI agents...",
              "Running specialist consultations..."] ++ loopStatus env r k order,
            warnings := loopWarnings env r k order,
            errors := [agentsFailedMsg],
            teamCalls := [] },
        respDict := order.map (fun n => (n, respOf env r k n)),
        agentRuns := order,
        retResponses := none, retDiagnosis := none } := by
  obtain ⟨hnd, hlen, hmem, _⟩ := perm_facts order hperm
  have hdict : loopDict env r k order [] =
      order.map (fun n => (n, respOf env r k n)) :=
    loopDict_eq env r k order [] hex (by simp) hnd
  have hcount : okCount env r k order = 3 := by
    rw [okCount_eq_length env r k order hex, hlen]
  obtain ⟨n, hn⟩ := hfail
  have hany : (order.map (fun n => (n, respOf env r k n))).any
      (fun p => p.2 = none) = true := by
    rw [List.any_eq_true]
    exact ⟨(n, respOf env r k n), List.mem_map_of_mem _ (hmem n), by simp [hn]⟩
  simp [process_medical_report, runLoop_eq, hex, hdict, hcount, hany,
    loopProgress_zero_three]

/-- Scenario: all futures observed with non-`None` responses and the
synthesis returns a diagnosis: the success return. -/
lemma process_eq_of_success (env : Env) (order : List AgentName)
    (r k diag : String) (hperm : order.Perm allAgents)
    (hex : firstExn env r k order = none)
    (hall : ∀ n : AgentName, respOf env r k n ≠ none)
    (hteam : env.teamRun (respOf env r k .cardiologist)
      (respOf env r k .psychologist) (respOf env r k .pulmonologist) k
        = .ok (some diag)) :
    process_medical_report env order r k =
      { trace :=
          { progress := [0, 10, 20, 40, 60, 80, 80, 100],
            statusTexts := ["Initializing AI agents...",
              "Running specialist consultations..."] ++ loopStatus env r k order
              ++ ["Generating multidisciplinary team analysis...",
                  "Analysis completed successfully!"],
            warnings := loopWarnings env r k order,
            errors := [],
            teamCalls := [(respOf env r k .cardiologist,
              respOf env r k .psychologist, respOf env r k .pulmonologist, k)] },
        respDict := order.map (fun n => (n, respOf env r k n)),
        agentRuns := order,
        retResponses := some (order.map (fun n => (n, respOf env r k n))),
        retDiagnosis := some diag } := by
  obtain ⟨hnd, hlen, hmem, _⟩ := perm_facts order hperm
  have hdict : loopDict env r k order [] =
      order.map (fun n => (n, respOf env r k n)) :=
    loopDict_eq env r k order [] hex (by simp) hnd
  have hcount : okCount env r k order = 3 := by
    rw [okCount_eq_length env r k order hex, hlen]
  have hany : (order.map (fun n => (n, respOf env r k n))).any
      (fun p => p.2 = none) = false := by
    rw [List.any_eq_false]
    intro p hp
    rcases List.mem_map.mp hp with ⟨n, _, rfl⟩
    simpa using hall n
  have hgc : dictGet (order.map (fun n => (n, respOf env r k n)))
      .cardiologist = some (respOf env r k .cardiologist) := by
    rw [dictGet_map (respOf env r k) order .cardiologist hnd,
      if_pos (hmem .cardiologist)]
  have hgp : dictGet (order.map (fun n => (n, respOf env r k n)))
      .psychologist = some (respOf env r k .psychologist) := by
    rw [dictGet_map (respOf env r k) order .psychologist hnd,
      if_pos (hmem .psychologist)]
  have hgu : dictGet (order.map (fun n => (n, respOf env r k n)))
      .pulmonologist = some (respOf env r k .pulmonologist) := by
    rw [dictGet_map (respOf env r k) order .pulmonologist hnd,
      if_pos (hmem .pulmonologist)]
  simp [process_medical_report, runLoop_eq, hex, hdict, hcount, hany,
    hgc, hgp, hgu, hteam, loopProgress_zero_three]

/-- Scenario: all analyzers succeed but the synthesis returns `None`:
the synthesis-failure error, return `(None, None)`. -/
lemma process_eq_of_teamNone (env : Env) (order : List AgentName)
    (r k : String) (hperm : order.Perm allAgents)
    (hex : firstExn env r k order = none)
    (hall : ∀ n : AgentName, respOf env r k n ≠ none)
    (hteam : env.teamRun (respOf env r k .cardiologist)
      (respOf env r k .psychologist) (respOf env r k .pulmonologist) k
        = .ok none) :
    process_medical_report env order r k =
      { trace :=
          { progress := [0, 10, 20, 40, 60, 80, 80],
            statusTexts := ["Initializing AI agents...",
              "Running specialist consultations..."] ++ loopStatus env r k order
              ++ ["Generating multidisciplinary team analysis..."],
            warnings := loopWarnings env r k order,
            errors := [teamFailedMsg],
            teamCalls := [(respOf env r k .cardiologist,
              respOf env r k .psychologist, respOf env r k .pulmonologist, k)] },
        respDict := order.map (fun n => (n, respOf env r k n)),
        agentRuns := order,
        retResponses := none, retDiagnosis := none } := by
  obtain ⟨hnd, hlen, hmem, _⟩ := perm_facts order hperm
  have hdict : loopDict env r k order [] =
      order.map (fun n => (n, respOf env r k n)) :=
    loopDict_eq env r k order [] hex (by simp) hnd
  have hcount : okCount env r k order = 3 := by
    rw [okCount_eq_length env r k order hex, hlen]
  have hany : (order.map (fun n => (n, respOf env r k n))).any
      (fun p => p.2 = none) = false := by
    rw [List.any_eq_false]
    intro p hp
    rcases List.mem_map.mp hp with ⟨n, _, rfl⟩
    simpa using hall n
  have hgc : dictGet (order.map (fun n => (n, respOf env r k n)))
      .cardiologist = some (respOf env r k .cardiologist) := by
    rw [dictGet_map (respOf env r k) order .cardiologist hnd,
      if_pos (hmem .cardiologist)]
  have hgp : dictGet (order.map (fun n => (n, respOf env r k n)))
      .psychologist = some (respOf env r k .psychologist) := by
    rw [dictGet_map (respOf env r k) order .psychologist hnd,
      if_pos (hmem .psychologist)]
  have hgu : dictGet (order.map (fun n => (n, respOf env r k n)))
      .pulmonologist = some (respOf env r k .pulmonologist) := by
    rw [dictGet_map (respOf env r k) order .pulmonologist hnd,
      if_pos (hmem .pulmonologist)]
  simp [process_medical_report, runLoop_eq, hex, hdict, hcount, hany,
    hgc, hgp, hgu, hteam, loopProgress_zero_three]

/-- Scenario: all analyzers succeed but the synthesis raises; the outer
`except` reports it, return `(None, None)`. -/
lemma process_eq_of_teamExn (env : Env) (order : List AgentName)
    (r k e : String) (hperm : order.Perm allAgents)
    (hex : firstExn env r k order = none)
    (hall : ∀ n : AgentName, respOf env r k n ≠ none)
    (hteam : env.teamRun (respOf env r k .cardiologist)
      (respOf env r k .psychologist) (respOf env r k .pulmonologist) k
        = .exn e) :
    process_medical_report env order r k =
      { trace :=
          { progress := [0, 10, 20, 40, 60, 80, 80],
            statusTexts := ["Initializing AI agents...",
              "Running specialist consultations..."] ++ loopStatus env r k order
              ++ ["Generating multidisciplinary team analysis..."],
            warnings := loopWarnings env r k order,
            errors := [processErrMsg e],
            teamCalls := [(respOf env r k .cardiologist,
              respOf env r k .psychologist, respOf env r k .pulmonologist, k)] },
        respDict := order.map (fun n => (n, respOf env r k n)),
        agentRuns := order,
        retResponses := none, retDiagnosis := none } := by
  obtain ⟨hnd, hlen, hmem, _⟩ := perm_facts order hperm
  have hdict : loopDict env r k order [] =
      order.map (fun n => (n, respOf env r k n)) :=
    loopDict_eq env r k order [] hex (by simp) hnd
  have hcount : okCount env r k order = 3 := by
    rw [okCount_eq_length env r k order hex, hlen]
  have hany : (order.map (fun n => (n, respOf env r k n))).any
      (fun p => p.2 = none) = false := by
    rw [List.any_eq_false]
    intro p hp
    rcases List.mem_map.mp hp with ⟨n, _, rfl⟩
    simpa using hall n
  have hgc : dictGet (order.map (fun n => (n, respOf env r k n)))
      .cardiologist = some (respOf env r k .cardiologist) := by
    rw [dictGet_map (respOf env r k) order .cardiologist hnd,
      if_pos (hmem .cardiologist)]
  have hgp : dictGet (order.map (fun n => (n, respOf env r k n)))
      .psychologist = some (respOf env r k .psychologist) := by
    rw [dictGet_map (respOf env r k) order .psychologist hnd,
      if_pos (hmem .psychologist)]
  have hgu : dictGet (order.map (fun n => (n, respOf env r k n)))
      .pulmonologist = some (respOf env r k .pulmonologist) := by
    rw [dictGet_map (respOf env r k) order .pulmonologist hnd,
      if_pos (hmem .pulmonologist)]
  simp [process_medical_report, runLoop_eq, hex, hdict, hcount, hany,
    hgc, hgp, hgu, hteam, loopProgress_zero_three]

/-- Every run falls in exactly one of the scenario classes. -/
lemma run_scenarios (env : Env) (r k : String) (order : List AgentName) :
    (∃ e, firstExn env r k order = some e) ∨
    (firstExn env r k order = none ∧ ∃ n : AgentName, respOf env r k n = none) ∨
    (firstExn env r k order = none ∧ ∀ n : AgentName, respOf env r k n ≠ none) := by
  cases hex : firstExn env r k order with
  | some e => exact Or.inl ⟨e, rfl⟩
  | none =>
    by_cases hfail : ∃ n : AgentName, respOf env r k n = none
    · exact Or.inr (Or.inl ⟨rfl, hfail⟩)
    · push_neg at hfail
      exact Or.inr (Or.inr ⟨rfl, hfail⟩)


/-! ## General run invariants -/

/-- Every analyzer agent submitted to the pool has its `run()` executed
exactly once per run, whatever the agents do. -/
lemma agentRuns_eq (env : Env) (order : List AgentName) (r k : String)
    (hperm : order.Perm allAgents) :
    (process_medical_report env order r k).agentRuns = order := by
  rcases run_scenarios env r k order with ⟨e, hex⟩ | ⟨hex, hfail⟩ | ⟨hex, hall⟩
  · rw [process_eq_of_exn env order r k e hex]
  · rw [process_eq_of_fail env order r k hperm hex hfail]
  · cases hteam : env.teamRun (respOf env r k .cardiologist)
        (respOf env r k .psychologist) (respOf env r k .pulmonologist) k with
    | exn e => rw [process_eq_of_teamExn env order r k e hperm hex hall hteam]
    | ok resp =>
      cases resp with
      | none => rw [process_eq_of_teamNone env order r k hperm hex hall hteam]
      | some diag =>
        rw [process_eq_of_success env order r k diag hperm hex hall hteam]

/-- The synthesis agent is constructed and invoked at most once per run. -/
lemma teamCalls_le_one (env : Env) (order : List AgentName) (r k : String)
    (hperm : order.Perm allAgents) :
    (process_medical_report env order r k).trace.teamCalls.length ≤ 1 := by
  rcases run_scenarios env r k order with ⟨e, hex⟩ | ⟨hex, hfail⟩ | ⟨hex, hall⟩
  · rw [process_eq_of_exn env order r k e hex]; simp
  · rw [process_eq_of_fail env order r k hperm hex hfail]; simp
  · cases hteam : env.teamRun (respOf env r k .cardiologist)
        (respOf env r k .psychologist) (respOf env r k .pulmonologist) k with
    | exn e =>
      rw [process_eq_of_teamExn env order r k e hperm hex hall hteam]; simp
    | ok resp =>
      cases resp with
      | none =>
        rw [process_eq_of_teamNone env order r k hperm hex hall hteam]; simp
      | some diag =>
        rw [process_eq_of_success env order r k diag hperm hex hall hteam]
        simp

/-! ## Claim C1 -/

/-- Claim C1, counterexample to the claim as stated: in `envSynthFail`
every analyzer worker returns a successful (non-`None`) result, yet the
run does not return a success outcome — it returns `(None, None)`,
because the synthesis worker returned `None`. -/
theorem C1_counterexample :
    envSynthFail.analyzerRun .cardiologist "report" "key"
        = .ok (some "Cardiologist report") ∧
    envSynthFail.analyzerRun .psychologist "report" "key"
        = .ok (some "Psychologist report") ∧
    envSynthFail.analyzerRun .pulmonologist "report" "key"
        = .ok (some "Pulmonologist report") ∧
    (process_medical_report envSynthFail allAgents "report" "key").retResponses
        = none ∧
    (process_medical_report envSynthFail allAgents "report" "key").retDiagnosis
        = none := by
  refine ⟨rfl, rfl, rfl, ?_, ?_⟩ <;> decide

/-- Claim C1 (amended): for every completion order and input, if every
analyzer worker returns a successful (non-absent) result AND the
synthesis worker returns a successful result, the run returns the
success outcome: a result mapping with exactly one entry per analyzer
name, holding each analyzer's own result, and the synthesis worker is
constructed and invoked exactly once, receiving all three analyzer
results.  (The claim as stated omits the synthesis-success hypothesis;
see `C1_counterexample`.) -/
theorem C1_success_run (env : Env) (order : List AgentName) (r k : String)
    (hperm : order.Perm allAgents)
    (hok : ∀ n : AgentName, ∃ s, env.analyzerRun n r k = .ok (some s))
    (hteam : ∃ diag, env.teamRun (respOf env r k .cardiologist)
      (respOf env r k .psychologist) (respOf env r k .pulmonologist) k
        = .ok (some diag)) :
    ∃ d diag,
      (process_medical_report env order r k).retResponses = some d ∧
      (process_medical_report env order r k).retDiagnosis = some diag ∧
      (∀ n : AgentName, (d.map Prod.fst).count n = 1) ∧
      (∀ n : AgentName, dictGet d n = some (respOf env r k n)) ∧
      (process_medical_report env order r k).trace.teamCalls =
        [(respOf env r k .cardiologist, respOf env r k .psychologist,
          respOf env r k .pulmonologist, k)] := by
  have hex : firstExn env r k order = none := by
    rw [firstExn_eq_none_iff]
    intro n _
    obtain ⟨s, hs⟩ := hok n
    exact ⟨some s, hs⟩
  have hall : ∀ n : AgentName, respOf env r k n ≠ none := by
    intro n
    obtain ⟨s, hs⟩ := hok n
    rw [respOf_eq_of_ok env r k n (some s) hs]
    simp
  obtain ⟨diag, hteam⟩ := hteam
  obtain ⟨hnd, hlen, hmem, hcnt⟩ := perm_facts order hperm
  rw [process_eq_of_success env order r k diag hperm hex hall hteam]
  refine ⟨order.map (fun n => (n, respOf env r k n)), diag, rfl, rfl, ?_, ?_, rfl⟩
  · intro n
    have hkeys : (order.map (fun n => (n, respOf env r k n))).map Prod.fst
        = order := by
      rw [List.map_map]
      have hid : (Prod.fst ∘ fun n : AgentName => (n, respOf env r k n)) = id :=
        rfl
      rw [hid, List.map_id]
    rw [hkeys]
    exact hcnt n
  · intro n
    rw [dictGet_map (respOf env r k) order n hnd, if_pos (hmem n)]

/-- Claim C1, witness: the amended theorem applied to the all-success
environment with the submission order as completion order. -/
theorem C1_success_run_witness :
    List.Perm allAgents allAgents ∧
    (∀ n : AgentName, ∃ s, envAllOk.analyzerRun n "report" "key"
        = .ok (some s)) ∧
    (∃ diag, envAllOk.teamRun (respOf envAllOk "report" "key" .cardiologist)
      (respOf envAllOk "report" "key" .psychologist)
      (respOf envAllOk "report" "key" .pulmonologist) "key"
        = .ok (some diag)) ∧
    (∃ d diag,
      (process_medical_report envAllOk allAgents "report" "key").retResponses
          = some d ∧
      (process_medical_report envAllOk allAgents "report" "key").retDiagnosis
          = some diag ∧
      (∀ n : AgentName, (d.map Prod.fst).count n = 1) ∧
      (∀ n : AgentName, dictGet d n
          = some (respOf envAllOk "report" "key" n)) ∧
      (process_medical_report envAllOk allAgents "report" "key").trace.teamCalls
          = [(respOf envAllOk "report" "key" .cardiologist,
              respOf envAllOk "report" "key" .psychologist,
              respOf envAllOk "report" "key" .pulmonologist, "key")]) := by
  have hok : ∀ n : AgentName, ∃ s, envAllOk.analyzerRun n "report" "key"
      = .ok (some s) := fun n => ⟨n.pyName ++ " report", rfl⟩
  have hteam : ∃ diag,
      envAllOk.teamRun (respOf envAllOk "report" "key" .cardiologist)
        (respOf envAllOk "report" "key" .psychologist)
        (respOf envAllOk "report" "key" .pulmonologist) "key"
          = .ok (some diag) := ⟨"combined verdict", rfl⟩
  exact ⟨List.Perm.refl _, hok, hteam,
    C1_success_run envAllOk allAgents "report" "key" (List.Perm.refl _) hok hteam⟩

/-! ## Claim C2 -/

/-- Claim C2: whenever at least one analyzer returns the absence marker
`None` (and no worker raises), the run ends in the analyzer-stage partial
failure: it returns `(None, None)`, emits the analyzer-failure error,
never constructs or invokes the synthesis worker, and the emitted
warnings name exactly the failing analyzers — for every subset of
failures, including all analyzers failing. -/
theorem C2_partial_failure (env : Env) (order : List AgentName) (r k : String)
    (hperm : order.Perm allAgents)
    (hnoexn : ∀ n : AgentName, ∃ resp, env.analyzerRun n r k = .ok resp)
    (hfail : ∃ n : AgentName, respOf env r k n = none) :
    (process_medical_report env order r k).retResponses = none ∧
    (process_medical_report env order r k).retDiagnosis = none ∧
    (process_medical_report env order r k).trace.teamCalls = [] ∧
    (process_medical_report env order r k).trace.errors = [agentsFailedMsg] ∧
    (∀ n : AgentName,
      warnMsg n ∈ (process_medical_report env order r k).trace.warnings ↔
        respOf env r k n = none) := by
  have hex : firstExn env r k order = none := by
    rw [firstExn_eq_none_iff]
    intro n _
    exact hnoexn n
  obtain ⟨hnd, hlen, hmem, _⟩ := perm_facts order hperm
  rw [process_eq_of_fail env order r k hperm hex hfail]
  refine ⟨rfl, rfl, rfl, rfl, ?_⟩
  intro n
  simpa [hmem n] using mem_loopWarnings env r k order n hex

/-- Claim C2, witness: the theorem applied to the environment where only
the psychologist fails. -/
theorem C2_partial_failure_witness :
    List.Perm allAgents allAgents ∧
    (∀ n : AgentName, ∃ resp, envPsyFail.analyzerRun n "report" "key"
        = .ok resp) ∧
    (∃ n : AgentName, respOf envPsyFail "report" "key" n = none) ∧
    ((process_medical_report envPsyFail allAgents "report" "key").retResponses
        = none ∧
     (process_medical_report envPsyFail allAgents "report" "key").retDiagnosis
        = none ∧
     (process_medical_report envPsyFail allAgents "report" "key").trace.teamCalls
        = [] ∧
     (process_medical_report envPsyFail allAgents "report" "key").trace.errors
        = [agentsFailedMsg] ∧
     (∀ n : AgentName, warnMsg n ∈
        (process_medical_report envPsyFail allAgents "report" "key").trace.warnings
          ↔ respOf envPsyFail "report" "key" n = none)) := by
  have hnoexn : ∀ n : AgentName, ∃ resp,
      envPsyFail.analyzerRun n "report" "key" = .ok resp := by
    intro n
    cases n <;> exact ⟨_, rfl⟩
  have hfail : ∃ n : AgentName, respOf envPsyFail "report" "key" n = none :=
    ⟨.psychologist, rfl⟩
  exact ⟨List.Perm.refl _, hnoexn, hfail,
    C2_partial_failure envPsyFail allAgents "report" "key" (List.Perm.refl _)
      hnoexn hfail⟩

/-! ## Claim C3 -/

/-- Claim C3, counterexample to the claim as stated: an analyzer-stage
failure (`envPsyFail`) and a synthesis-stage failure (`envSynthFail`)
produce the identical caller-visible return value `(None, None)`, so the
synthesis-stage failure is NOT distinguishable at the caller's
interface. -/
theorem C3_counterexample :
    envSynthFail.teamRun (some "Cardiologist report")
        (some "Psychologist report") (some "Pulmonologist report") "key"
        = .ok none ∧
    envPsyFail.analyzerRun .psychologist "report" "key" = .ok none ∧
    (process_medical_report envSynthFail allAgents "report" "key").retResponses
        = (process_medical_report envPsyFail allAgents "report" "key").retResponses ∧
    (process_medical_report envSynthFail allAgents "report" "key").retDiagnosis
        = (process_medical_report envPsyFail allAgents "report" "key").retDiagnosis ∧
    (process_medical_report envSynthFail allAgents "report" "key").retResponses
        = none ∧
    (process_medical_report envSynthFail allAgents "report" "key").retDiagnosis
        = none := by
  refine ⟨rfl, rfl, ?_, ?_, ?_, ?_⟩ <;> decide

/-- Claim C3 (amended): when all analyzers succeed and the synthesis
worker returns `None`, the run fails with the same caller-visible return
value `(None, None)` as an analyzer-stage failure; the synthesis stage
is signalled only through the emitted error message
(`teamFailedMsg`, distinct from the analyzer-stage `agentsFailedMsg`),
not through the returned value.  (The claim as stated asserts
distinguishability at the caller's interface; see
`C3_counterexample`.) -/
theorem C3_synthesis_failure (env : Env) (order : List AgentName)
    (r k : String) (hperm : order.Perm allAgents)
    (hok : ∀ n : AgentName, ∃ s, env.analyzerRun n r k = .ok (some s))
    (hteam : env.teamRun (respOf env r k .cardiologist)
      (respOf env r k .psychologist) (respOf env r k .pulmonologist) k
        = .ok none) :
    (process_medical_report env order r k).retResponses = none ∧
    (process_medical_report env order r k).retDiagnosis = none ∧
    (process_medical_report env order r k).trace.errors = [teamFailedMsg] ∧
    teamFailedMsg ≠ agentsFailedMsg := by
  have hex : firstExn env r k order = none := by
    rw [firstExn_eq_none_iff]
    intro n _
    obtain ⟨s, hs⟩ := hok n
    exact ⟨some s, hs⟩
  have hall : ∀ n : AgentName, respOf env r k n ≠ none := by
    intro n
    obtain ⟨s, hs⟩ := hok n
    rw [respOf_eq_of_ok env r k n (some s) hs]
    simp
  rw [process_eq_of_teamNone env order r k hperm hex hall hteam]
  exact ⟨rfl, rfl, rfl, by decide⟩

/-- Claim C3, witness: the amended theorem applied to `envSynthFail`. -/
theorem C3_synthesis_failure_witness :
    List.Perm allAgents allAgents ∧
    (∀ n : AgentName, ∃ s, envSynthFail.analyzerRun n "report" "key"
        = .ok (some s)) ∧
    envSynthFail.teamRun (respOf envSynthFail "report" "key" .cardiologist)
      (respOf envSynthFail "report" "key" .psychologist)
      (respOf envSynthFail "report" "key" .pulmonologist) "key" = .ok none ∧
    ((process_medical_report envSynthFail allAgents "report" "key").retResponses
        = none ∧
     (process_medical_report envSynthFail allAgents "report" "key").retDiagnosis
        = none ∧
     (process_medical_report envSynthFail allAgents "report" "key").trace.errors
        = [teamFailedMsg] ∧
     teamFailedMsg ≠ agentsFailedMsg) := by
  have hok : ∀ n : AgentName, ∃ s, envSynthFail.analyzerRun n "report" "key"
      = .ok (some s) := fun n => ⟨n.pyName ++ " report", rfl⟩
  exact ⟨List.Perm.refl _, hok, rfl,
    C3_synthesis_failure envSynthFail allAgents "report" "key"
      (List.Perm.refl _) hok rfl⟩

/-! ## Claim C4 -/

/-- Claim C4, counterexample to the claim as stated: on empty report text
and empty credential the run does not fail fast — every analyzer worker
is constructed and run, progress advances through the analyzer phase,
and (with all agents succeeding) the run even completes successfully. -/
theorem C4_counterexample :
    (process_medical_report envAllOk allAgents "" "").agentRuns
        = allAgents ∧
    (process_medical_report envAllOk allAgents "" "").trace.progress
        = [0, 10, 20, 40, 60, 80, 80, 100] ∧
    (process_medical_report envAllOk allAgents "" "").retDiagnosis
        = some "combined verdict" := by
  refine ⟨?_, ?_, ?_⟩ <;> decide

/-- Claim C4 (amended): `process_medical_report` performs no validation
of the report text or the credential: on empty report and empty
credential it does not fail fast — every analyzer worker is still
constructed and its `run()` executed exactly once, as for any other
input.  (The claim as stated asserts an `InvalidInputError` fail-fast
path that does not exist in the code; see `C4_counterexample`.) -/
theorem C4_no_input_validation (env : Env) (order : List AgentName)
    (hperm : order.Perm allAgents) :
    (process_medical_report env order "" "").agentRuns = order ∧
    (∀ n : AgentName,
      (process_medical_report env order "" "").agentRuns.count n = 1) := by
  obtain ⟨_, _, _, hcnt⟩ := perm_facts order hperm
  refine ⟨agentRuns_eq env order "" "" hperm, ?_⟩
  intro n
  rw [agentRuns_eq env order "" "" hperm]
  exact hcnt n

/-- Claim C4, witness: the amended theorem applied to the all-success
environment. -/
theorem C4_no_input_validation_witness :
    List.Perm allAgents allAgents ∧
    ((process_medical_report envAllOk allAgents "" "").agentRuns
        = allAgents ∧
     (∀ n : AgentName,
       (process_medical_report envAllOk allAgents "" "").agentRuns.count n
          = 1)) :=
  ⟨List.Perm.refl _,
    C4_no_input_validation envAllOk allAgents (List.Perm.refl _)⟩

/-! ## Claim C5 -/

/-- Claim C5: two runs over the same input and the same agent behaviours
whose analyzers complete in different orders produce the identical final
result mapping (same presence, same value under every analyzer name) and
the identical final diagnosis; moreover no decision is made before the
mapping holds an entry for every analyzer: whenever the loop completes
without an exception, the dict every decision reads has an entry for all
three names. -/
theorem C5_order_independence (env : Env) (o1 o2 : List AgentName)
    (r k : String) (h1 : o1.Perm allAgents) (h2 : o2.Perm allAgents) :
    ((process_medical_report env o1 r k).retResponses.map
        (fun d n => dictGet d n) =
      (process_medical_report env o2 r k).retResponses.map
        (fun d n => dictGet d n)) ∧
    (process_medical_report env o1 r k).retDiagnosis =
      (process_medical_report env o2 r k).retDiagnosis ∧
    (firstExn env r k o1 = none → ∀ n : AgentName,
      (dictGet (process_medical_report env o1 r k).respDict n).isSome) := by
  obtain ⟨hnd1, hlen1, hmem1, _⟩ := perm_facts o1 h1
  obtain ⟨hnd2, hlen2, hmem2, _⟩ := perm_facts o2 h2
  have hiff : firstExn env r k o1 = none ↔ firstExn env r k o2 = none := by
    rw [firstExn_eq_none_iff, firstExn_eq_none_iff]
    constructor
    · intro h n _
      exact h n (hmem1 n)
    · intro h n _
      exact h n (hmem2 n)
  rcases run_scenarios env r k o1 with ⟨e, hex1⟩ | ⟨hex1, hfail⟩ | ⟨hex1, hall⟩
  · obtain ⟨e2, hex2⟩ : ∃ e2, firstExn env r k o2 = some e2 := by
      cases he2 : firstExn env r k o2 with
      | some e2 => exact ⟨e2, rfl⟩
      | none =>
        have := hiff.mpr he2
        rw [hex1] at this
        cases this
    rw [process_eq_of_exn env o1 r k e hex1, process_eq_of_exn env o2 r k e2 hex2]
    refine ⟨rfl, rfl, ?_⟩
    intro hno
    rw [hex1] at hno
    cases hno
  · have hex2 : firstExn env r k o2 = none := hiff.mp hex1
    rw [process_eq_of_fail env o1 r k h1 hex1 hfail,
      process_eq_of_fail env o2 r k h2 hex2 hfail]
    refine ⟨rfl, rfl, ?_⟩
    intro _ n
    show (dictGet (o1.map fun m => (m, respOf env r k m)) n).isSome = true
    rw [dictGet_map (respOf env r k) o1 n hnd1, if_pos (hmem1 n)]
    rfl
  · have hex2 : firstExn env r k o2 = none := hiff.mp hex1
    have hfull : ∀ n : AgentName,
        (dictGet (o1.map fun m => (m, respOf env r k m)) n).isSome = true := by
      intro n
      rw [dictGet_map (respOf env r k) o1 n hnd1, if_pos (hmem1 n)]
      rfl
    cases hteam : env.teamRun (respOf env r k .cardiologist)
        (respOf env r k .psychologist) (respOf env r k .pulmonologist) k with
    | exn e =>
      rw [process_eq_of_teamExn env o1 r k e h1 hex1 hall hteam,
        process_eq_of_teamExn env o2 r k e h2 hex2 hall hteam]
      exact ⟨rfl, rfl, fun _ n => hfull n⟩
    | ok resp =>
      cases resp with
      | none =>
        rw [process_eq_of_teamNone env o1 r k h1 hex1 hall hteam,
          process_eq_of_teamNone env o2 r k h2 hex2 hall hteam]
        exact ⟨rfl, rfl, fun _ n => hfull n⟩
      | some diag =>
        rw [process_eq_of_success env o1 r k diag h1 hex1 hall hteam,
          process_eq_of_success env o2 r k diag h2 hex2 hall hteam]
        refine ⟨?_, rfl, fun _ n => hfull n⟩
        show some (fun n => dictGet (o1.map fun m => (m, respOf env r k m)) n)
          = some (fun n => dictGet (o2.map fun m => (m, respOf env r k m)) n)
        congr 1
        funext n
        rw [dictGet_map (respOf env r k) o1 n hnd1, if_pos (hmem1 n),
          dictGet_map (respOf env r k) o2 n hnd2, if_pos (hmem2 n)]

/-- Claim C5, witness: the theorem applied to `envAllOk` with two
different completion orders. -/
theorem C5_order_independence_witness :
    List.Perm allAgents allAgents ∧
    List.Perm [AgentName.pulmonologist, AgentName.cardiologist,
      AgentName.psychologist] allAgents ∧
    (((process_medical_report envAllOk allAgents "report" "key").retResponses.map
        (fun d n => dictGet d n) =
      (process_medical_report envAllOk [AgentName.pulmonologist,
        AgentName.cardiologist, AgentName.psychologist] "report" "key").retResponses.map
        (fun d n => dictGet d n)) ∧
     (process_medical_report envAllOk allAgents "report" "key").retDiagnosis =
      (process_medical_report envAllOk [AgentName.pulmonologist,
        AgentName.cardiologist, AgentName.psychologist] "report" "key").retDiagnosis ∧
     (firstExn envAllOk "report" "key" allAgents = none → ∀ n : AgentName,
      (dictGet (process_medical_report envAllOk allAgents
        "report" "key").respDict n).isSome)) := by
  refine ⟨List.Perm.refl _, by decide, ?_⟩
  exact C5_order_independence envAllOk allAgents
    [AgentName.pulmonologist, AgentName.cardiologist, AgentName.psychologist]
    "report" "key" (List.Perm.refl _) (by decide)

/-! ## Claim C6 -/

/-- Progress-list facts for a run aborted by a worker exception: the
emitted prefix is a non-decreasing chain that never reaches `100`. -/
lemma progress_chain_exn (m : Nat) (hm : m ≤ 3) :
    List.Chain' (· ≤ ·) ([0, 10, 20] ++ loopProgress 0 m) ∧
    ([0, 10, 20] ++ loopProgress 0 m).getLast? ≠ some 100 := by
  have h0 : [0, 10, 20] ++ loopProgress 0 0 = [0, 10, 20] := by decide
  have h1 : [0, 10, 20] ++ loopProgress 0 1 = [0, 10, 20, 40] := by decide
  have h2 : [0, 10, 20] ++ loopProgress 0 2 = [0, 10, 20, 40, 60] := by decide
  have h3 : [0, 10, 20] ++ loopProgress 0 3 = [0, 10, 20, 40, 60, 80] := by decide
  interval_cases m
  · rw [h0]
    exact ⟨by simp [List.chain'_cons], by decide⟩
  · rw [h1]
    exact ⟨by simp [List.chain'_cons], by decide⟩
  · rw [h2]
    exact ⟨by simp [List.chain'_cons], by decide⟩
  · rw [h3]
    exact ⟨by simp [List.chain'_cons], by decide⟩

/-- Claim C6: in every run the sequence of emitted progress percentages
is monotonically non-decreasing, and its final value is `100` (the
fraction `1.0`) exactly when the run returns the success outcome. -/
theorem C6_progress_monotone (env : Env) (order : List AgentName)
    (r k : String) (hperm : order.Perm allAgents) :
    List.Chain' (· ≤ ·) (process_medical_report env order r k).trace.progress ∧
    ((process_medical_report env order r k).trace.progress.getLast?
        = some 100 ↔
      ((process_medical_report env order r k).retResponses.isSome ∧
       (process_medical_report env order r k).retDiagnosis.isSome)) := by
  obtain ⟨_, hlen, _, _⟩ := perm_facts order hperm
  rcases run_scenarios env r k order with ⟨e, hex⟩ | ⟨hex, hfail⟩ | ⟨hex, hall⟩
  · rw [process_eq_of_exn env order r k e hex]
    have hm : okCount env r k order ≤ 3 := by
      have := okCount_le_length env r k order
      omega
    obtain ⟨hchain, hlast⟩ := progress_chain_exn (okCount env r k order) hm
    refine ⟨hchain, ?_⟩
    dsimp only
    simpa using hlast
  · rw [process_eq_of_fail env order r k hperm hex hfail]
    refine ⟨?_, ?_⟩ <;> dsimp only
    · simp [List.chain'_cons]
    · decide
  · cases hteam : env.teamRun (respOf env r k .cardiologist)
        (respOf env r k .psychologist) (respOf env r k .pulmonologist) k with
    | exn e =>
      rw [process_eq_of_teamExn env order r k e hperm hex hall hteam]
      refine ⟨?_, ?_⟩ <;> dsimp only
      · simp [List.chain'_cons]
      · decide
    | ok resp =>
      cases resp with
      | none =>
        rw [process_eq_of_teamNone env order r k hperm hex hall hteam]
        refine ⟨?_, ?_⟩ <;> dsimp only
        · simp [List.chain'_cons]
        · decide
      | some diag =>
        rw [process_eq_of_success env order r k diag hperm hex hall hteam]
        refine ⟨?_, ?_⟩ <;> dsimp only
        · simp [List.chain'_cons]
        · exact ⟨fun _ => ⟨rfl, rfl⟩, fun _ => by decide⟩

/-- Claim C6, witness: the theorem applied to the all-success
environment (final progress `100`) — hypotheses discharged at a
concrete order. -/
theorem C6_progress_monotone_witness :
    List.Perm allAgents allAgents ∧
    (List.Chain' (· ≤ ·)
      (process_medical_report envAllOk allAgents "report" "key").trace.progress ∧
     ((process_medical_report envAllOk allAgents
          "report" "key").trace.progress.getLast? = some 100 ↔
       ((process_medical_report envAllOk allAgents
          "report" "key").retResponses.isSome ∧
        (process_medical_report envAllOk allAgents
          "report" "key").retDiagnosis.isSome))) :=
  ⟨List.Perm.refl _,
    C6_progress_monotone envAllOk allAgents "report" "key" (List.Perm.refl _)⟩

/-! ## Claim C7 -/

/-- Properties of the analyzer-phase progress values `loopProgress 0 m`
for the at-most-three observed completions: one event per completion,
the `i`-th event is `40 + 20 * i` (an even 20-point increment inside the
20-80 budget), every event lies in `[20, 80]`, and the top value `80` is
emitted exactly when all three analyzers have completed. -/
lemma loopProgress_props (m : Nat) (hm : m ≤ 3) :
    (loopProgress 0 m).length = m ∧
    (∀ i : Nat, i < m → (loopProgress 0 m).get? i = some (40 + 20 * i)) ∧
    (∀ x ∈ loopProgress 0 m, 20 ≤ x ∧ x ≤ 80) ∧
    (80 ∈ loopProgress 0 m ↔ m = 3) ∧
    ((loopProgress 0 m).getLast? = some 80 ↔ m = 3) := by
  interval_cases m <;>
    refine ⟨by decide, ?_, by decide, by decide, by decide⟩ <;>
    · intro i hi
      interval_cases i <;> decide

/-- Claim C7: in every run the progress events decompose as the fixed
initialization prefix `[0, 10, 20]`, then the analyzer-phase events (one
per completed-and-observed analyzer), then a tail of synthesis-phase
events (each `80` or `100`); the analyzer-phase events advance by an
even `20`-point increment (`40 + 20 * i` for the `i`-th completion),
all lie in the fixed `20`-`80` sub-range, and the top of the sub-range
(`80`) is reached exactly when the last of the three analyzers has
completed — never before. -/
theorem C7_analyzer_phase (env : Env) (order : List AgentName)
    (r k : String) (hperm : order.Perm allAgents) :
    ∃ tail, (process_medical_report env order r k).trace.progress =
        [0, 10, 20] ++ loopProgress 0 (okCount env r k order) ++ tail ∧
      (∀ x ∈ tail, x = 80 ∨ x = 100) ∧
      (loopProgress 0 (okCount env r k order)).length
          = okCount env r k order ∧
      (∀ i : Nat, i < okCount env r k order →
        (loopProgress 0 (okCount env r k order)).get? i
          = some (40 + 20 * i)) ∧
      (∀ x ∈ loopProgress 0 (okCount env r k order), 20 ≤ x ∧ x ≤ 80) ∧
      (80 ∈ loopProgress 0 (okCount env r k order) ↔
        okCount env r k order = 3) ∧
      ((loopProgress 0 (okCount env r k order)).getLast? = some 80 ↔
        okCount env r k order = 3) := by
  obtain ⟨_, hlen, _, _⟩ := perm_facts order hperm
  have hm : okCount env r k order ≤ 3 := by
    have := okCount_le_length env r k order
    omega
  obtain ⟨hl, hg, hr, htop, hlast⟩ := loopProgress_props (okCount env r k order) hm
  rcases run_scenarios env r k order with ⟨e, hex⟩ | ⟨hex, hfail⟩ | ⟨hex, hall⟩
  · refine ⟨[], ?_, by simp, hl, hg, hr, htop, hlast⟩
    rw [process_eq_of_exn env order r k e hex]
    simp
  · have hcount : okCount env r k order = 3 := by
      rw [okCount_eq_length env r k order hex, hlen]
    refine ⟨[], ?_, by simp, hl, hg, hr, htop, hlast⟩
    rw [process_eq_of_fail env order r k hperm hex hfail]
    dsimp only
    rw [hcount, loopProgress_zero_three]
    decide
  · have hcount : okCount env r k order = 3 := by
      rw [okCount_eq_length env r k order hex, hlen]
    cases hteam : env.teamRun (respOf env r k .cardiologist)
        (respOf env r k .psychologist) (respOf env r k .pulmonologist) k with
    | exn e =>
      refine ⟨[80], ?_, by simp, hl, hg, hr, htop, hlast⟩
      rw [process_eq_of_teamExn env order r k e hperm hex hall hteam]
      dsimp only
      rw [hcount, loopProgress_zero_three]
      decide
    | ok resp =>
      cases resp with
      | none =>
        refine ⟨[80], ?_, by simp, hl, hg, hr, htop, hlast⟩
        rw [process_eq_of_teamNone env order r k hperm hex hall hteam]
        dsimp only
        rw [hcount, loopProgress_zero_three]
        decide
      | some diag =>
        refine ⟨[80, 100], ?_, by simp, hl, hg, hr, htop, hlast⟩
        rw [process_eq_of_success env order r k diag hperm hex hall hteam]
        dsimp only
        rw [hcount, loopProgress_zero_three]
        decide

/-- Claim C7, witness: the decomposition applied to the all-success run. -/
theorem C7_analyzer_phase_witness :
    List.Perm allAgents allAgents ∧
    (∃ tail,
      (process_medical_report envAllOk allAgents "report" "key").trace.progress =
        [0, 10, 20] ++
          loopProgress 0 (okCount envAllOk "report" "key" allAgents) ++ tail ∧
      (∀ x ∈ tail, x = 80 ∨ x = 100) ∧
      (loopProgress 0 (okCount envAllOk "report" "key" allAgents)).length
          = okCount envAllOk "report" "key" allAgents ∧
      (∀ i : Nat, i < okCount envAllOk "report" "key" allAgents →
        (loopProgress 0 (okCount envAllOk "report" "key" allAgents)).get? i
          = some (40 + 20 * i)) ∧
      (∀ x ∈ loopProgress 0 (okCount envAllOk "report" "key" allAgents),
        20 ≤ x ∧ x ≤ 80) ∧
      (80 ∈ loopProgress 0 (okCount envAllOk "report" "key" allAgents) ↔
        okCount envAllOk "report" "key" allAgents = 3) ∧
      ((loopProgress 0 (okCount envAllOk "report" "key" allAgents)).getLast?
          = some 80 ↔ okCount envAllOk "report" "key" allAgents = 3)) :=
  ⟨List.Perm.refl _,
    C7_analyzer_phase envAllOk allAgents "report" "key" (List.Perm.refl _)⟩

/-! ## Claim C8 -/

/-- Claim C8: in every run each analyzer worker's `run()` executes
exactly once (all three futures are submitted once and run in the pool),
the synthesis worker is constructed and invoked at most once, and no
worker is re-invoked after a failure — the invocation counts hold
whatever the workers return or raise. -/
theorem C8_single_invocation (env : Env) (order : List AgentName)
    (r k : String) (hperm : order.Perm allAgents) :
    (process_medical_report env order r k).agentRuns = order ∧
    (∀ n : AgentName,
      (process_medical_report env order r k).agentRuns.count n = 1) ∧
    (process_medical_report env order r k).trace.teamCalls.length ≤ 1 := by
  obtain ⟨_, _, _, hcnt⟩ := perm_facts order hperm
  refine ⟨agentRuns_eq env order r k hperm, ?_,
    teamCalls_le_one env order r k hperm⟩
  intro n
  rw [agentRuns_eq env order r k hperm]
  exact hcnt n

/-- Claim C8, witness: the theorem applied to the environment where one
analyzer fails — the failing worker still runs exactly once and is not
retried. -/
theorem C8_single_invocation_witness :
    List.Perm allAgents allAgents ∧
    ((process_medical_report envPsyFail allAgents "report" "key").agentRuns
        = allAgents ∧
     (∀ n : AgentName,
       (process_medical_report envPsyFail allAgents "report" "key").agentRuns.count n
          = 1) ∧
     (process_medical_report envPsyFail allAgents
        "report" "key").trace.teamCalls.length ≤ 1) :=
  ⟨List.Perm.refl _,
    C8_single_invocation envPsyFail allAgents "report" "key" (List.Perm.refl _)⟩

/-! ## Claim C10 -/

/-- Claim C10: every run returns either exactly the failure pair
`(None, None)` — as happens when an analyzer fails, when the synthesis
fails, and when any worker raises (the embedding is total: the outer
`except` converts every raised exception into this same return, so no
exception propagates to the caller) — or a full success pair in which
the responses mapping is present, every analyzer result in it is
non-`None`, and the synthesis result is non-`None`.  In particular the
returned value alone never distinguishes the failure stage. -/
theorem C10_failure_return_shape (env : Env) (order : List AgentName)
    (r k : String) (hperm : order.Perm allAgents) :
    ((process_medical_report env order r k).retResponses = none ∧
      (process_medical_report env order r k).retDiagnosis = none) ∨
    (∃ d diag,
      (process_medical_report env order r k).retResponses = some d ∧
      (process_medical_report env order r k).retDiagnosis = some diag ∧
      ∀ p ∈ d, ∃ s, p.2 = some s) := by
  rcases run_scenarios env r k order with ⟨e, hex⟩ | ⟨hex, hfail⟩ | ⟨hex, hall⟩
  · rw [process_eq_of_exn env order r k e hex]
    exact Or.inl ⟨rfl, rfl⟩
  · rw [process_eq_of_fail env order r k hperm hex hfail]
    exact Or.inl ⟨rfl, rfl⟩
  · cases hteam : env.teamRun (respOf env r k .cardiologist)
        (respOf env r k .psychologist) (respOf env r k .pulmonologist) k with
    | exn e =>
      rw [process_eq_of_teamExn env order r k e hperm hex hall hteam]
      exact Or.inl ⟨rfl, rfl⟩
    | ok resp =>
      cases resp with
      | none =>
        rw [process_eq_of_teamNone env order r k hperm hex hall hteam]
        exact Or.inl ⟨rfl, rfl⟩
      | some diag =>
        rw [process_eq_of_success env order r k diag hperm hex hall hteam]
        refine Or.inr ⟨order.map (fun n => (n, respOf env r k n)), diag,
          rfl, rfl, ?_⟩
        intro p hp
        rcases List.mem_map.mp hp with ⟨n, _, rfl⟩
        cases hv : respOf env r k n with
        | none => exact absurd hv (hall n)
        | some s => exact ⟨s, by simp [hv]⟩

/-- Claim C10, witness: the theorem applied to the environment where the
synthesis fails — the run returns exactly `(None, None)`. -/
theorem C10_failure_return_shape_witness :
    List.Perm allAgents allAgents ∧
    (((process_medical_report envSynthFail allAgents "report" "key").retResponses
        = none ∧
      (process_medical_report envSynthFail allAgents "report" "key").retDiagnosis
        = none) ∨
     (∃ d diag,
      (process_medical_report envSynthFail allAgents "report" "key").retResponses
        = some d ∧
      (process_medical_report envSynthFail allAgents "report" "key").retDiagnosis
        = some diag ∧
      ∀ p ∈ d, ∃ s, p.2 = some s)) :=
  ⟨List.Perm.refl _,
    C10_failure_return_shape envSynthFail allAgents "report" "key"
      (List.Perm.refl _)⟩
